import Mathlib

/-!
Verification of `abp/filters/renderer.py`: the fragment-include resolver and
the streaming transform pipeline (timestamp substitution, version stamping,
metadata deduplication, checksum insertion, header validation).

The embedding is eager: Python generators become functions on `List Line`,
raised exceptions become `Except RenderErr`. The recursive include expansion
carries an explicit fuel (depth) counter; exhausting it yields the artificial
error `RenderErr.outOfFuel`, which the termination theorem shows is never
reached once the fuel exceeds the number of distinct reachable include
targets. External collaborators (the line parser, the source fetcher, the
clock, the md5 digest) are modelled from the spec as data or parameters.
-/

namespace Abp

/-- Modelled from the spec: the typed line produced by the external parser
(`parser.py` is not under src/). One variant per kind:
`header`, `metadata(key, value)`, `comment(text)`, `include(target)`,
`emptyline`, `rule(raw text)`. -/
inductive Line where
  | header : Line
  | metadata (key : String) (value : String) : Line
  | comment (text : String) : Line
  | «include» (target : String) : Line
  | emptyline : Line
  | rule (text : String) : Line
deriving DecidableEq, Repr

/-- The `line.type` string tag used by the renderer's type checks. -/
def Line.type : Line → String
  | Line.header => "header"
  | Line.metadata _ _ => "metadata"
  | Line.comment _ => "comment"
  | Line.«include» _ => "include"
  | Line.emptyline => "emptyline"
  | Line.rule _ => "rule"

/-- Modelled from the spec: the canonical textual serialization of each line
variant (`to_string` lives in the external parser module, not under src/).
The exact texts are fixed here once; the spec only requires one stable
rendering per variant. -/
def Line.to_string : Line → String
  | Line.header => "[Adblock Plus 2.0]"
  | Line.metadata key value => "! " ++ key ++ ": " ++ value
  | Line.comment text => "! " ++ text
  | Line.«include» target => "%include " ++ target ++ "%"
  | Line.emptyline => ""
  | Line.rule text => text

/-- Errors raised by the renderer. `includeError` keeps both the embedded
error text and the include stack (the Python class formats them into one
message at construction; `include_error_message` below is that formatting).
`notFound` is the external source's not-found condition, `parseError` is the
external parser's failure (a `ValueError`), `stopIteration` models `next()`
on an exhausted iterator, and `outOfFuel` is the fuel artifact of the
embedding. -/
inductive RenderErr where
  | includeError (error : String) (stack : List String) : RenderErr
  | notFound (error : String) : RenderErr
  | parseError (error : String) : RenderErr
  | missingHeader (error : String) : RenderErr
  | stopIteration : RenderErr
  | outOfFuel : RenderErr
deriving DecidableEq, Repr

def quote_name (s : String) : String := "'" ++ s ++ "'"

/-- Python's `' from '.join(...)` over a list of already-quoted names. -/
def join_sep (sep : String) : List String → String
  | [] => ""
  | [x] => x
  | x :: y :: ys => x ++ sep ++ join_sep sep (y :: ys)

/-- The message built by `IncludeError.__init__`:
`'{} when including {}'.format(error, ' from '.join(map("'{}'".format, reversed(stack))))`,
or just `error` when the stack is empty. -/
def include_error_message (error : String) (stack : List String) : String :=
  let stack_str := join_sep " from " (stack.reverse.map quote_name)
  if stack_str == "" then error else error ++ " when including " ++ stack_str

deriving instance DecidableEq for Except

/-- Modelled from the spec: a source capability (`sources.py` is not under
src/). `get` returns fragment text by name or fails with a not-found
condition; the external parser then yields lines or fails with a parse
condition. We fuse fetch and parse: each fragment name maps either to its
parsed lines or to a parse-error message; an absent name is the not-found
condition. `is_inheritable` is the source's inheritance opt-in flag. -/
structure Source where
  fragments : List (String × Except String (List Line))
  is_inheritable : Bool
deriving DecidableEq, Repr

/-- `parse_filterlist(source.get(name))`: not-found and parse failures
become the corresponding error values. -/
def Source.getParsed (s : Source) (n : String) : Except RenderErr (List Line) :=
  match s.fragments.lookup n with
  | none => Except.error (RenderErr.notFound ("Not found: " ++ quote_name n))
  | some (Except.error msg) => Except.error (RenderErr.parseError msg)
  | some (Except.ok lines) => Except.ok lines

/-- Python `name.split(':', 1)`: split at the first occurrence of `sep`,
`none` when `sep` does not occur. -/
def split1 (sep : Char) : List Char → Option (List Char × List Char)
  | [] => none
  | c :: rest =>
    if c == sep then some ([], rest)
    else
      match split1 sep rest with
      | some (xs, ys) => some (c :: xs, ys)
      | none => none

/-- Lines 57-69 of renderer.py: pick the source for a fragment name.
A `source:name` qualifier selects from the registry (unknown qualifier is an
`IncludeError`); an unqualified name uses the default source, and an absent
default is an `IncludeError`. -/
def choose_source (name : String) (sources : List (String × Source))
    (default_source : Option Source) (include_stack : List String) :
    Except RenderErr (Source × String) :=
  match split1 ':' name.data with
  | some (source_chars, name_chars) =>
    let source_name := String.mk source_chars
    (match sources.lookup source_name with
     | some source => Except.ok (source, String.mk name_chars)
     | none =>
       Except.error (RenderErr.includeError
         ("Unknown source: " ++ quote_name source_name) include_stack))
  | none =>
    match default_source with
    | none =>
      Except.error (RenderErr.includeError
        ("Source name is absent in: " ++ quote_name name) include_stack)
    | some source => Except.ok (source, name)

/-- `_get_and_parse_fragment`: resolve the source, fetch and parse the
fragment, and return the lines together with the inherited source
(`source if source.is_inheritable else None`). -/
def get_and_parse_fragment (name : String) (sources : List (String × Source))
    (default_source : Option Source) (include_stack : List String) :
    Except RenderErr (List Line × Option Source) :=
  match choose_source name sources default_source include_stack with
  | Except.error e => Except.error e
  | Except.ok (source, name_in_source) =>
    match source.getParsed name_in_source with
    | Except.error e => Except.error e
    | Except.ok lines =>
      Except.ok (lines, if source.is_inheritable then some source else none)

/-- The `except (NotFound, ValueError)` clause of `_process_includes`:
not-found and parse failures are re-raised as `IncludeError(exc, include_stack)`;
every other error passes through unchanged. -/
def wrap_catchable (e : RenderErr) (include_stack : List String) : RenderErr :=
  match e with
  | RenderErr.notFound msg => RenderErr.includeError msg include_stack
  | RenderErr.parseError msg => RenderErr.includeError msg include_stack
  | e => e

/-- The body of `_process_includes` for one fuel level: `deep` is the
recursive expansion applied to an included fragment's lines. A non-include
line passes through; an include line is cycle-checked, resolved, expanded by
`deep` under the fragment's inherited source, and replaced by a boundary
comment followed by the expansion. -/
def expand_step (sources : List (String × Source))
    (deep : Option Source → List String → List Line → Except RenderErr (List Line))
    (default_source : Option Source) (stack : List String) :
    List Line → Except RenderErr (List Line)
  | [] => Except.ok []
  | line :: rest =>
    match line with
    | Line.«include» name =>
      let include_stack := stack ++ [name]
      if name ∈ stack then
        Except.error (RenderErr.includeError "Include loop encountered" include_stack)
      else
        match
          (match get_and_parse_fragment name sources default_source include_stack with
           | Except.ok r => deep r.2 include_stack r.1
           | Except.error e => Except.error e) with
        | Except.ok all_included =>
          (match expand_step sources deep default_source stack rest with
           | Except.ok rest_out =>
             Except.ok (Line.comment ("*** " ++ name ++ " ***") :: (all_included ++ rest_out))
           | Except.error e => Except.error e)
        | Except.error e => Except.error (wrap_catchable e include_stack)
    | _ =>
      match expand_step sources deep default_source stack rest with
      | Except.ok rest_out => Except.ok (line :: rest_out)
      | Except.error e => Except.error e

/-- `_process_includes`, with an explicit recursion-depth fuel: each descent
into an included fragment consumes one unit. -/
def process_includes (sources : List (String × Source)) :
    Nat → Option Source → List String → List Line → Except RenderErr (List Line)
  | 0 => expand_step sources (fun _ _ _ => Except.error RenderErr.outOfFuel)
  | Nat.succ fuel => expand_step sources (process_includes sources fuel)

/-- The UTC instant read from the clock (`time.gmtime()`), passed in as a
parameter so rendering is deterministic given a fixed clock reading. -/
structure UTCTime where
  year : Nat
  month : Nat
  day : Nat
  hour : Nat
  minute : Nat

def pad2 (n : Nat) : String := if n < 10 then "0" ++ toString n else toString n

def pad4 (n : Nat) : String :=
  if n < 10 then "000" ++ toString n
  else if n < 100 then "00" ++ toString n
  else if n < 1000 then "0" ++ toString n
  else toString n

def month_name (m : Nat) : String :=
  List.getD ["Jan", "Feb", "Mar", "Apr", "May", "Jun",
             "Jul", "Aug", "Sep", "Oct", "Nov", "Dec"] (m - 1) "Jan"

/-- `time.strftime('%d %b %Y %H:%M UTC', ...)` (strftime itself is external;
the format string is in renderer.py line 104). -/
def format_timestamp (t : UTCTime) : String :=
  pad2 t.day ++ " " ++ month_name t.month ++ " " ++ pad4 t.year ++ " " ++
    pad2 t.hour ++ ":" ++ pad2 t.minute ++ " UTC"

/-- `time.strftime('%Y%m%d%H%M', ...)` (renderer.py line 120). -/
def format_version (t : UTCTime) : String :=
  pad4 t.year ++ pad2 t.month ++ pad2 t.day ++ pad2 t.hour ++ pad2 t.minute

/-- Does `pat` occur as a leading block of `s`? (helper for the Python
`in` and `replace` string operations). -/
def starts_with : List Char → List Char → Bool
  | [], _ => true
  | _ :: _, [] => false
  | p :: ps, c :: cs => p == c && starts_with ps cs

/-- Python `pat in s` over char lists. -/
def contains_sub (pat : List Char) : List Char → Bool
  | [] => starts_with pat []
  | c :: rest => starts_with pat (c :: rest) || contains_sub pat rest

/-- Python `pat in s`. -/
def str_contains (s pat : String) : Bool := contains_sub pat.data s.data

/-- Strip `pat` from the front of `s`, returning the remainder. -/
def drop_start : List Char → List Char → Option (List Char)
  | [], s => some s
  | _ :: _, [] => none
  | p :: ps, c :: cs => if p == c then drop_start ps cs else none

/-- Replace every (leftmost, non-overlapping) occurrence of `pat` by `rep`;
the fuel bounds the number of steps and is instantiated with the subject's
length, which suffices for a non-empty pattern. -/
def replace_fuel (pat rep : List Char) : Nat → List Char → List Char
  | _, [] => []
  | 0, s => s
  | Nat.succ n, c :: rest =>
    match drop_start pat (c :: rest) with
    | some remainder => rep ++ replace_fuel pat rep n remainder
    | none => c :: replace_fuel pat rep n rest

/-- Python `s.replace(pat, rep)` (for the non-empty patterns the renderer
uses). -/
def str_replace (s pat rep : String) : String :=
  String.mk (replace_fuel pat.data rep.data s.data.length s.data)

/-- `_process_timestamps`: substitute the `%timestamp%` marker in comment
lines by the formatted current UTC instant. -/
def process_timestamps (now : UTCTime) : List Line → List Line
  | [] => []
  | line :: rest =>
    (match line with
     | Line.comment text =>
       if str_contains text "%timestamp%" then
         Line.comment (str_replace text "%timestamp%" (format_timestamp now))
       else Line.comment text
     | other => other) :: process_timestamps now rest

/-- `_insert_version`: place a `Version` metadata line right after the first
line; `next()` on an empty stream raises `StopIteration`. -/
def insert_version (now : UTCTime) : List Line → Except RenderErr (List Line)
  | [] => Except.error RenderErr.stopIteration
  | first :: rest =>
    Except.ok (first :: Line.metadata "Version" (format_version now) :: rest)

/-- The loop of `_remove_duplicates`, carrying the seen-keys set and the
running `enumerate` index. -/
def remove_duplicates_aux (seen : List String) (i : Nat) : List Line → List Line
  | [] => []
  | line :: rest =>
    match line with
    | Line.metadata key value =>
      if key ∈ seen then remove_duplicates_aux seen (i + 1) rest
      else Line.metadata key value :: remove_duplicates_aux (key :: seen) (i + 1) rest
    | Line.header =>
      if i = 0 then Line.header :: remove_duplicates_aux seen (i + 1) rest
      else remove_duplicates_aux seen (i + 1) rest
    | other => other :: remove_duplicates_aux seen (i + 1) rest

/-- `_remove_duplicates`: the seen set starts as `{'Checksum'}`. -/
def remove_duplicates (lines : List Line) : List Line :=
  remove_duplicates_aux ["Checksum"] 0 lines

def b64_alphabet : List Char :=
  "ABCDEFGHIJKLMNOPQRSTUVWXYZabcdefghijklmnopqrstuvwxyz0123456789+/".data

def b64_char_of (n : Nat) : Char := List.getD b64_alphabet n '?'

/-- Standard base64 of a byte sequence, with `=` padding. -/
def b64encode : List Nat → List Char
  | [] => []
  | [a] => [b64_char_of (a / 4), b64_char_of (a % 4 * 16), '=', '=']
  | [a, b] => [b64_char_of (a / 4), b64_char_of (a % 4 * 16 + b / 16),
               b64_char_of (b % 16 * 4), '=']
  | a :: b :: c :: rest =>
    b64_char_of (a / 4) :: b64_char_of (a % 4 * 16 + b / 16) ::
      b64_char_of (b % 16 * 4 + c / 64) :: b64_char_of (c % 64) :: b64encode rest

/-- Python `bytes.rstrip(b'=')`. -/
def rstrip_eq (cs : List Char) : List Char :=
  (cs.reverse.dropWhile (fun c => c == '=')).reverse

/-- `base64.b64encode(md5sum.digest()).rstrip(b'=')`, decoded to a string.
The md5 digest itself is the external `hashlib` capability, passed in as a
function from the concatenated hashed content to the digest bytes. -/
def checksum_value (md5 : String → List Nat) (content : String) : String :=
  String.mk (rstrip_eq (b64encode (md5 content)))

/-- The loop of `_insert_checksum`: re-emit every line, accumulating
`line.to_string() + '\n'` for every non-emptyline line into the hashed
content, and append the checksum metadata line at the end. -/
def insert_checksum_aux (md5 : String → List Nat) (acc : String) :
    List Line → List Line
  | [] => [Line.metadata "Checksum" (checksum_value md5 acc)]
  | line :: rest =>
    line :: insert_checksum_aux md5
      (if line.type != "emptyline" then acc ++ (line.to_string ++ "\n") else acc) rest

/-- `_insert_checksum`. -/
def insert_checksum (md5 : String → List Nat) (lines : List Line) : List Line :=
  insert_checksum_aux md5 "" lines

/-- `_validate`: fail unless the first line is a header; empty input raises
`StopIteration` from `next()`. -/
def validate : List Line → Except RenderErr (List Line)
  | [] => Except.error RenderErr.stopIteration
  | first :: rest =>
    if first.type == "header" then Except.ok (first :: rest)
    else Except.error
      (RenderErr.missingHeader "No header found at the beginning of the input.")

/-- `render_filterlist`: resolve the top fragment (with an empty include
stack), expand includes under the stack `[name]`, then run the pipeline
stages in order: timestamps, version, deduplication, checksum, validation. -/
def render_filterlist (now : UTCTime) (md5 : String → List Nat) (fuel : Nat)
    (name : String) (sources : List (String × Source)) (top_source : Option Source) :
    Except RenderErr (List Line) :=
  match get_and_parse_fragment name sources top_source [] with
  | Except.error e => Except.error e
  | Except.ok (lines0, default_source) =>
    match process_includes sources fuel default_source [name] lines0 with
    | Except.error e => Except.error e
    | Except.ok lines1 =>
      match insert_version now (process_timestamps now lines1) with
      | Except.error e => Except.error e
      | Except.ok lines3 =>
        validate (insert_checksum md5 (remove_duplicates lines3))

/-! ### Basic string lemmas -/

theorem string_append_assoc (a b c : String) : (a ++ b) ++ c = a ++ (b ++ c) := by
  cases a with
  | mk as =>
    cases b with
    | mk bs =>
      cases c with
      | mk cs =>
        show String.mk ((as ++ bs) ++ cs) = String.mk (as ++ (bs ++ cs))
        rw [List.append_assoc]

theorem string_append_empty (a : String) : a ++ "" = a := by
  cases a with
  | mk as =>
    show String.mk (as ++ []) = String.mk as
    rw [List.append_nil]

theorem string_empty_append (a : String) : "" ++ a = a := rfl

/-- Replacing the marker by `rep` inside the text that is exactly the marker
yields `rep`. -/
theorem str_replace_whole (rep : String) :
    str_replace "%timestamp%" "%timestamp%" rep = rep := by
  show String.mk (rep.data ++ []) = rep
  rw [List.append_nil]

/-! ### The checksum stage computes the digest of the concatenated
serializations -/

/-- The concatenation, in order, of `to_string() + '\n'` over every line
that is not an emptyline: the content hashed by the checksum stage. -/
def checksum_input : List Line → String
  | [] => ""
  | line :: rest =>
    if line.type != "emptyline" then (line.to_string ++ "\n") ++ checksum_input rest
    else checksum_input rest

theorem insert_checksum_aux_eq (md5 : String → List Nat) :
    ∀ (lines : List Line) (acc : String),
    insert_checksum_aux md5 acc lines =
      lines ++ [Line.metadata "Checksum"
        (checksum_value md5 (acc ++ checksum_input lines))] := by
  intro lines
  induction lines with
  | nil =>
    intro acc
    simp [insert_checksum_aux, checksum_input, string_append_empty]
  | cons line rest ih =>
    intro acc
    by_cases h : (line.type == "emptyline") = true
    · simp [insert_checksum_aux, checksum_input, bne, h, ih]
    · simp only [insert_checksum_aux, checksum_input, bne, h, Bool.not_false, if_true,
        Bool.not_eq_true] at *
      rw [ih, string_append_assoc]
      simp

/-- The incremental digest over the stream equals the digest of the full
concatenated content, and the `Checksum` metadata line is appended last. -/
theorem insert_checksum_eq (md5 : String → List Nat) (lines : List Line) :
    insert_checksum md5 lines =
      lines ++ [Line.metadata "Checksum" (checksum_value md5 (checksum_input lines))] := by
  rw [insert_checksum, insert_checksum_aux_eq md5 lines "", string_empty_append]

/-! ### Concrete fixtures -/

/-- The inheritable source of the spec's concrete scenario:
fragment `main` is `[header, include("ads")]` and fragment `ads` is
`[comment("%timestamp%"), metadata("Foo","1")]`. -/
def c2src : Source :=
  ⟨[("main", Except.ok [Line.header, Line.«include» "ads"]),
    ("ads", Except.ok [Line.comment "%timestamp%", Line.metadata "Foo" "1"])], true⟩

/-- A source whose fragment `A` includes `B` and whose fragment `B` includes
`A` back: the include graph has a two-fragment cycle. -/
def cycsrc : Source :=
  ⟨[("A", Except.ok [Line.header, Line.«include» "B"]),
    ("B", Except.ok [Line.«include» "A"])], true⟩

/-- A source whose `main` fragment does not begin with a header line. -/
def badsrc : Source := ⟨[("main", Except.ok [Line.rule "||example.com^"])], true⟩

/-! ### Claims -/

/-- C2: rendering fragment `main` from the inheritable source `default`
(where `main` = `[header, include("ads")]` and `ads` =
`[comment("%timestamp%"), metadata("Foo","1")]`) yields exactly, in order:
the header; `metadata("Version", v)` with `v` the clock formatted
`YYYYMMDDHHMM`; the boundary comment `*** ads ***`; a comment holding the
clock formatted `DD Mon YYYY HH:MM UTC`; `metadata("Foo","1")`; and a
trailing `metadata("Checksum", c)`. -/
theorem c2_concrete_render (now : UTCTime) (md5 : String → List Nat) :
    ∃ c, render_filterlist now md5 10 "main" [("default", c2src)] (some c2src) =
      Except.ok [Line.header,
        Line.metadata "Version" (format_version now),
        Line.comment "*** ads ***",
        Line.comment (format_timestamp now),
        Line.metadata "Foo" "1",
        Line.metadata "Checksum" c] := by
  refine ⟨checksum_value md5 (checksum_input
    [Line.header, Line.metadata "Version" (format_version now), Line.comment "*** ads ***",
     Line.comment (format_timestamp now), Line.metadata "Foo" "1"]), ?_⟩
  have hmain : render_filterlist now md5 10 "main" [("default", c2src)] (some c2src) =
      validate (insert_checksum md5 (remove_duplicates
        [Line.header, Line.metadata "Version" (format_version now),
         Line.comment "*** ads ***",
         Line.comment (str_replace "%timestamp%" "%timestamp%" (format_timestamp now)),
         Line.metadata "Foo" "1"])) := rfl
  rw [str_replace_whole] at hmain
  have hrd : remove_duplicates
      [Line.header, Line.metadata "Version" (format_version now), Line.comment "*** ads ***",
       Line.comment (format_timestamp now), Line.metadata "Foo" "1"] =
      [Line.header, Line.metadata "Version" (format_version now), Line.comment "*** ads ***",
       Line.comment (format_timestamp now), Line.metadata "Foo" "1"] := rfl
  rw [hrd, insert_checksum_eq md5] at hmain
  rw [hmain]
  rfl

/-- C3: an include line targeting a name already on the include stack fails
with the cycle `IncludeError` carrying the stack extended by that name, and
rendering fragment `A` of a source where `A` includes `B` and `B` includes
`A` fails with an inclusion condition whose rendered trail contains both
`'A'` and `'B'`. -/
theorem c3_include_cycle :
    (∀ (sources : List (String × Source)) (fuel : Nat) (d : Option Source)
       (stack : List String) (name : String) (rest : List Line),
       name ∈ stack →
       process_includes sources fuel d stack (Line.«include» name :: rest) =
         Except.error (RenderErr.includeError "Include loop encountered" (stack ++ [name])))
    ∧ (render_filterlist ⟨2026, 10, 12, 0, 0⟩ (fun _ => []) 10 "A" [] (some cycsrc) =
         Except.error (RenderErr.includeError "Include loop encountered" ["A", "B", "A"])
       ∧ str_contains
           (include_error_message "Include loop encountered" ["A", "B", "A"]) "'A'" = true
       ∧ str_contains
           (include_error_message "Include loop encountered" ["A", "B", "A"]) "'B'" = true) := by
  constructor
  · intro sources fuel d stack name rest h
    cases fuel with
    | zero => simp [process_includes, expand_step, h]
    | succ f => simp [process_includes, expand_step, h]
  · exact ⟨rfl, rfl, rfl⟩

/-- C3 witness: a concrete cycle detection. -/
theorem c3_include_cycle_witness :
    process_includes [] 1 none ["A"] [Line.«include» "A"] =
      Except.error (RenderErr.includeError "Include loop encountered" ["A", "A"]) :=
  c3_include_cycle.1 [] 1 none ["A"] "A" [] (by decide)

/-- C8: resolution of a fragment name fails with the unknown-source
`IncludeError` when the qualifier names no registry source, and with the
absent-source `IncludeError` when the name is unqualified and no default
source exists; concretely, rendering "foo:bar" against an empty registry
fails with a message identifying `'foo'`. -/
theorem c8_source_resolution :
    (∀ (name : String) (sources : List (String × Source)) (d : Option Source)
       (istack : List String) (xs ys : List Char),
       split1 ':' name.data = some (xs, ys) →
       sources.lookup (String.mk xs) = none →
       get_and_parse_fragment name sources d istack =
         Except.error (RenderErr.includeError
           ("Unknown source: " ++ quote_name (String.mk xs)) istack))
    ∧ (∀ (name : String) (sources : List (String × Source)) (istack : List String),
       split1 ':' name.data = none →
       get_and_parse_fragment name sources none istack =
         Except.error (RenderErr.includeError
           ("Source name is absent in: " ++ quote_name name) istack))
    ∧ (∀ (now : UTCTime) (md5 : String → List Nat) (fuel : Nat) (top : Source),
       render_filterlist now md5 fuel "foo:bar" [] (some top) =
         Except.error (RenderErr.includeError "Unknown source: 'foo'" [])
       ∧ str_contains (include_error_message "Unknown source: 'foo'" []) "'foo'" = true) := by
  refine ⟨?_, ?_, ?_⟩
  · intro name sources d istack xs ys h1 h2
    simp [get_and_parse_fragment, choose_source, h1, h2]
  · intro name sources istack h1
    simp [get_and_parse_fragment, choose_source, h1]
  · intro now md5 fuel top
    exact ⟨rfl, rfl⟩

/-- C8 witness: concrete unknown-source and absent-source failures. -/
theorem c8_source_resolution_witness :
    get_and_parse_fragment "foo:bar" [] none ["x"] =
      Except.error (RenderErr.includeError
        ("Unknown source: " ++ quote_name (String.mk ['f', 'o', 'o'])) ["x"]) :=
  c8_source_resolution.1 "foo:bar" [] none ["x"] ['f', 'o', 'o'] ['b', 'a', 'r']
    (by decide) rfl

/-- C9: validation looks only at the first line: a non-header first line
fails with the missing-header condition and yields nothing, a header first
line passes the whole stream through unchanged; and a render whose resolved
top fragment does not begin with a header fails with the missing-header
condition. -/
theorem c9_validate :
    (∀ (first : Line) (rest : List Line), Line.type first ≠ "header" →
       validate (first :: rest) =
         Except.error
           (RenderErr.missingHeader "No header found at the beginning of the input."))
    ∧ (∀ (first : Line) (rest : List Line), Line.type first = "header" →
       validate (first :: rest) = Except.ok (first :: rest))
    ∧ render_filterlist ⟨2026, 10, 12, 0, 0⟩ (fun _ => []) 10 "main" [] (some badsrc) =
        Except.error
          (RenderErr.missingHeader "No header found at the beginning of the input.") := by
  refine ⟨?_, ?_, rfl⟩
  · intro first rest h
    simp [validate, h]
  · intro first rest h
    simp [validate, h]

/-! ### Include expansion: structure of a successful expansion -/

theorem expand_step_cons_other (sources : List (String × Source))
    (deep : Option Source → List String → List Line → Except RenderErr (List Line))
    (d : Option Source) (stack : List String) (l : Line) (rest : List Line)
    (h : Line.type l ≠ "include") :
    expand_step sources deep d stack (l :: rest) =
      match expand_step sources deep d stack rest with
      | Except.ok rest_out => Except.ok (l :: rest_out)
      | Except.error e => Except.error e := by
  cases l with
  | «include» t => exact absurd rfl h
  | header => rfl
  | metadata k v => rfl
  | comment t => rfl
  | emptyline => rfl
  | rule t => rfl

theorem expand_step_cons_include (sources : List (String × Source))
    (deep : Option Source → List String → List Line → Except RenderErr (List Line))
    (d : Option Source) (stack : List String) (name : String) (rest : List Line)
    (h : name ∉ stack) :
    expand_step sources deep d stack (Line.«include» name :: rest) =
      match (match get_and_parse_fragment name sources d (stack ++ [name]) with
             | Except.ok r => deep r.2 (stack ++ [name]) r.1
             | Except.error e => Except.error e) with
      | Except.ok all_included =>
        (match expand_step sources deep d stack rest with
         | Except.ok rest_out =>
           Except.ok (Line.comment ("*** " ++ name ++ " ***") :: (all_included ++ rest_out))
         | Except.error e => Except.error e)
      | Except.error e => Except.error (wrap_catchable e (stack ++ [name])) := by
  simp [expand_step, h]

theorem expand_step_no_include_append (sources : List (String × Source))
    (deep : Option Source → List String → List Line → Except RenderErr (List Line))
    (d : Option Source) (stack : List String) :
    ∀ (pre rest : List Line), (∀ l ∈ pre, Line.type l ≠ "include") →
    expand_step sources deep d stack (pre ++ rest) =
      match expand_step sources deep d stack rest with
      | Except.ok rest_out => Except.ok (pre ++ rest_out)
      | Except.error e => Except.error e := by
  intro pre
  induction pre with
  | nil =>
    intro rest h
    cases hr : expand_step sources deep d stack rest <;> simp [hr]
  | cons l pre ih =>
    intro rest h
    have hl : Line.type l ≠ "include" := h l (by simp)
    have hpre : ∀ x ∈ pre, Line.type x ≠ "include" := fun x hx => h x (by simp [hx])
    rw [List.cons_append, expand_step_cons_other sources deep d stack l _ hl, ih rest hpre]
    cases hr : expand_step sources deep d stack rest <;> simp

/-- C1: in a successful expansion, every include line targeting `T` (here:
the first one, after an include-free prefix that passes through unchanged
and in position) is replaced by exactly the boundary comment `*** T ***`
followed by `T`'s own recursively expanded lines, with the remainder of the
stream expanded under the same rule. -/
theorem c1_include_expansion :
    ∀ (sources : List (String × Source)) (f : Nat) (d : Option Source)
      (stack : List String) (pre : List Line) (T : String) (post : List Line)
      (out : List Line),
    (∀ l ∈ pre, Line.type l ≠ "include") →
    process_includes sources (f + 1) d stack (pre ++ Line.«include» T :: post) =
      Except.ok out →
    T ∉ stack ∧
    ∃ (inc : List Line) (inh : Option Source) (expT postOut : List Line),
      get_and_parse_fragment T sources d (stack ++ [T]) = Except.ok (inc, inh) ∧
      process_includes sources f inh (stack ++ [T]) inc = Except.ok expT ∧
      process_includes sources (f + 1) d stack post = Except.ok postOut ∧
      out = pre ++ (Line.comment ("*** " ++ T ++ " ***") :: (expT ++ postOut)) := by
  intro sources f d stack pre T post out hpre hok
  have hps : process_includes sources (f + 1) d stack (pre ++ Line.«include» T :: post) =
      expand_step sources (process_includes sources f) d stack
        (pre ++ Line.«include» T :: post) := rfl
  rw [hps, expand_step_no_include_append sources _ d stack pre _ hpre] at hok
  cases hinc : expand_step sources (process_includes sources f) d stack
      (Line.«include» T :: post) with
  | error e => rw [hinc] at hok; simp at hok
  | ok o =>
    rw [hinc] at hok
    simp only [Except.ok.injEq] at hok
    by_cases hT : T ∈ stack
    · have : expand_step sources (process_includes sources f) d stack
          (Line.«include» T :: post) =
          Except.error (RenderErr.includeError "Include loop encountered" (stack ++ [T])) := by
        simp [expand_step, hT]
      rw [this] at hinc
      simp at hinc
    · rw [expand_step_cons_include sources _ d stack T post hT] at hinc
      refine ⟨hT, ?_⟩
      cases hg : get_and_parse_fragment T sources d (stack ++ [T]) with
      | error e => rw [hg] at hinc; simp at hinc
      | ok r =>
        rw [hg] at hinc
        simp only [] at hinc
        cases hdeep : process_includes sources f r.2 (stack ++ [T]) r.1 with
        | error e => rw [hdeep] at hinc; simp at hinc
        | ok all =>
          rw [hdeep] at hinc
          cases hrest : expand_step sources (process_includes sources f) d stack post with
          | error e => rw [hrest] at hinc; simp at hinc
          | ok rest_out =>
            rw [hrest] at hinc
            simp only [Except.ok.injEq] at hinc
            exact ⟨r.1, r.2, all, rest_out, rfl, hdeep, hrest,
              by rw [← hok, ← hinc]⟩

/-- C1 witness: concrete expansion of `[header, include("ads")]`. -/
theorem c1_include_expansion_witness :
    "ads" ∉ ["main"] ∧
    ∃ (inc : List Line) (inh : Option Source) (expT postOut : List Line),
      get_and_parse_fragment "ads" [("default", c2src)] (some c2src) ["main", "ads"] =
        Except.ok (inc, inh) ∧
      process_includes [("default", c2src)] 2 inh ["main", "ads"] inc = Except.ok expT ∧
      process_includes [("default", c2src)] 3 (some c2src) ["main"] [] = Except.ok postOut ∧
      [Line.header, Line.comment "*** ads ***", Line.comment "%timestamp%",
       Line.metadata "Foo" "1"] =
        [Line.header] ++ (Line.comment ("*** " ++ "ads" ++ " ***") :: (expT ++ postOut)) :=
  c1_include_expansion [("default", c2src)] 2 (some c2src) ["main"] [Line.header] "ads" []
    [Line.header, Line.comment "*** ads ***", Line.comment "%timestamp%",
     Line.metadata "Foo" "1"]
    (by decide) (by decide)

/-! ### Deduplication invariants -/

/-- Is `l` a metadata line with key `k`? -/
def meta_key_is (k : String) : Line → Bool := fun l =>
  match l with
  | Line.metadata key _ => key == k
  | _ => false

def is_header_line : Line → Bool := fun l =>
  match l with
  | Line.header => true
  | _ => false

/-- Neither metadata nor header. -/
def is_other_line : Line → Bool := fun l =>
  match l with
  | Line.metadata _ _ => false
  | Line.header => false
  | _ => true

theorem rd_aux_meta_mem (k : String) :
    ∀ (lines : List Line) (seen : List String) (i : Nat), k ∈ seen →
    (remove_duplicates_aux seen i lines).filter (meta_key_is k) = [] := by
  intro lines
  induction lines with
  | nil => intro seen i _; simp [remove_duplicates_aux]
  | cons line rest ih =>
    intro seen i h
    cases line with
    | metadata key value =>
      by_cases hk : key ∈ seen
      · simp [remove_duplicates_aux, hk, ih _ _ h]
      · have hne : (key == k) = false := by
          simp only [beq_eq_false_iff_ne, ne_eq]
          intro he
          exact hk (he ▸ h)
        simp [remove_duplicates_aux, hk, List.filter, meta_key_is, hne,
          ih _ _ (List.mem_cons_of_mem _ h)]
    | header =>
      by_cases hi : i = 0
      · simp [remove_duplicates_aux, hi, List.filter, meta_key_is, ih _ _ h]
      · simp [remove_duplicates_aux, hi, ih _ _ h]
    | comment t => simp [remove_duplicates_aux, List.filter, meta_key_is, ih _ _ h]
    | «include» t => simp [remove_duplicates_aux, List.filter, meta_key_is, ih _ _ h]
    | emptyline => simp [remove_duplicates_aux, List.filter, meta_key_is, ih _ _ h]
    | rule t => simp [remove_duplicates_aux, List.filter, meta_key_is, ih _ _ h]

theorem rd_aux_meta_not_mem (k : String) :
    ∀ (lines : List Line) (seen : List String) (i : Nat), k ∉ seen →
    (remove_duplicates_aux seen i lines).filter (meta_key_is k) =
      (lines.filter (meta_key_is k)).take 1 := by
  intro lines
  induction lines with
  | nil => intro seen i _; simp [remove_duplicates_aux]
  | cons line rest ih =>
    intro seen i h
    cases line with
    | metadata key value =>
      by_cases hk : key ∈ seen
      · have hne : (key == k) = false := by
          simp only [beq_eq_false_iff_ne, ne_eq]
          intro he
          exact h (he ▸ hk)
        simp [remove_duplicates_aux, hk, List.filter, meta_key_is, hne, ih _ _ h]
      · by_cases he : key = k
        · subst he
          simp [remove_duplicates_aux, hk, List.filter, meta_key_is,
            rd_aux_meta_mem key rest (key :: seen) (i + 1) (by simp)]
        · have hne : (key == k) = false := by
            simp only [beq_eq_false_iff_ne, ne_eq]; exact he
          have hk2 : k ∉ key :: seen := by
            simp only [List.mem_cons, not_or]
            exact ⟨fun hkk => he hkk.symm, h⟩
          simp [remove_duplicates_aux, hk, List.filter, meta_key_is, hne, ih _ _ hk2]
    | header =>
      by_cases hi : i = 0
      · simp [remove_duplicates_aux, hi, List.filter, meta_key_is, ih _ _ h]
      · simp [remove_duplicates_aux, hi, List.filter, meta_key_is, ih _ _ h]
    | comment t => simp [remove_duplicates_aux, List.filter, meta_key_is, ih _ _ h]
    | «include» t => simp [remove_duplicates_aux, List.filter, meta_key_is, ih _ _ h]
    | emptyline => simp [remove_duplicates_aux, List.filter, meta_key_is, ih _ _ h]
    | rule t => simp [remove_duplicates_aux, List.filter, meta_key_is, ih _ _ h]

theorem rd_aux_no_header :
    ∀ (lines : List Line) (seen : List String) (i : Nat), i ≠ 0 →
    (remove_duplicates_aux seen i lines).filter is_header_line = [] := by
  intro lines
  induction lines with
  | nil => intro seen i _; simp [remove_duplicates_aux]
  | cons line rest ih =>
    intro seen i h
    cases line with
    | metadata key value =>
      by_cases hk : key ∈ seen
      · simp [remove_duplicates_aux, hk, ih _ _ (Nat.succ_ne_zero i)]
      · simp [remove_duplicates_aux, hk, List.filter, is_header_line,
          ih _ _ (Nat.succ_ne_zero i)]
    | header => simp [remove_duplicates_aux, h, ih _ _ (Nat.succ_ne_zero i)]
    | comment t => simp [remove_duplicates_aux, List.filter, is_header_line,
        ih _ _ (Nat.succ_ne_zero i)]
    | «include» t => simp [remove_duplicates_aux, List.filter, is_header_line,
        ih _ _ (Nat.succ_ne_zero i)]
    | emptyline => simp [remove_duplicates_aux, List.filter, is_header_line,
        ih _ _ (Nat.succ_ne_zero i)]
    | rule t => simp [remove_duplicates_aux, List.filter, is_header_line,
        ih _ _ (Nat.succ_ne_zero i)]

theorem rd_header (lines : List Line) (seen : List String) :
    (remove_duplicates_aux seen 0 lines).filter is_header_line =
      (lines.take 1).filter is_header_line := by
  cases lines with
  | nil => simp [remove_duplicates_aux]
  | cons line rest =>
    cases line with
    | metadata key value =>
      by_cases hk : key ∈ seen
      · simp [remove_duplicates_aux, hk, List.filter, is_header_line,
          rd_aux_no_header rest _ 1 one_ne_zero]
      · simp [remove_duplicates_aux, hk, List.filter, is_header_line,
          rd_aux_no_header rest _ 1 one_ne_zero]
    | header =>
      simp [remove_duplicates_aux, List.filter, is_header_line,
        rd_aux_no_header rest seen 1 one_ne_zero]
    | comment t => simp [remove_duplicates_aux, List.filter, is_header_line,
        rd_aux_no_header rest seen 1 one_ne_zero]
    | «include» t => simp [remove_duplicates_aux, List.filter, is_header_line,
        rd_aux_no_header rest seen 1 one_ne_zero]
    | emptyline => simp [remove_duplicates_aux, List.filter, is_header_line,
        rd_aux_no_header rest seen 1 one_ne_zero]
    | rule t => simp [remove_duplicates_aux, List.filter, is_header_line,
        rd_aux_no_header rest seen 1 one_ne_zero]

theorem rd_aux_other :
    ∀ (lines : List Line) (seen : List String) (i : Nat),
    (remove_duplicates_aux seen i lines).filter is_other_line =
      lines.filter is_other_line := by
  intro lines
  induction lines with
  | nil => intro seen i; simp [remove_duplicates_aux]
  | cons line rest ih =>
    intro seen i
    cases line with
    | metadata key value =>
      by_cases hk : key ∈ seen
      · simp [remove_duplicates_aux, hk, List.filter, is_other_line, ih]
      · simp [remove_duplicates_aux, hk, List.filter, is_other_line, ih]
    | header =>
      by_cases hi : i = 0
      · simp [remove_duplicates_aux, hi, List.filter, is_other_line, ih]
      · simp [remove_duplicates_aux, hi, List.filter, is_other_line, ih]
    | comment t => simp [remove_duplicates_aux, List.filter, is_other_line, ih]
    | «include» t => simp [remove_duplicates_aux, List.filter, is_other_line, ih]
    | emptyline => simp [remove_duplicates_aux, List.filter, is_other_line, ih]
    | rule t => simp [remove_duplicates_aux, List.filter, is_other_line, ih]

/-- C4: after deduplication, each non-Checksum metadata key keeps exactly
its first occurrence, every `Checksum` metadata line is discarded, a header
survives exactly when it is the first line of the stage's input, and all
other line types pass through unconditionally. -/
theorem c4_remove_duplicates (lines : List Line) :
    (∀ k : String, k ≠ "Checksum" →
      (remove_duplicates lines).filter (meta_key_is k) =
        (lines.filter (meta_key_is k)).take 1)
    ∧ (remove_duplicates lines).filter (meta_key_is "Checksum") = []
    ∧ (remove_duplicates lines).filter is_header_line =
        (lines.take 1).filter is_header_line
    ∧ (remove_duplicates lines).filter is_other_line = lines.filter is_other_line := by
  refine ⟨fun k hk => ?_, ?_, ?_, ?_⟩
  · exact rd_aux_meta_not_mem k lines ["Checksum"] 0 (by simpa using hk)
  · exact rd_aux_meta_mem "Checksum" lines ["Checksum"] 0 (by simp)
  · exact rd_header lines ["Checksum"]
  · exact rd_aux_other lines ["Checksum"] 0

/-- C4 witness: a concrete deduplication keeping only the first `Foo`. -/
theorem c4_remove_duplicates_witness :
    (remove_duplicates [Line.header, Line.metadata "Foo" "1", Line.metadata "Foo" "2",
        Line.metadata "Checksum" "x"]).filter (meta_key_is "Foo") =
      (([Line.header, Line.metadata "Foo" "1", Line.metadata "Foo" "2",
        Line.metadata "Checksum" "x"] : List Line).filter (meta_key_is "Foo")).take 1 :=
  (c4_remove_duplicates [Line.header, Line.metadata "Foo" "1", Line.metadata "Foo" "2",
    Line.metadata "Checksum" "x"]).1 "Foo" (by decide)

/-- C5: the checksum stage re-emits every input line unchanged and in
order, then appends exactly one `metadata("Checksum", v)` line, where `v`
is the base64 encoding, stripped of trailing `=` padding, of the digest of
the concatenation of `to_string() + '\n'` over every non-emptyline input
line (the appended line itself is not hashed). -/
theorem c5_checksum_stage (md5 : String → List Nat) (lines : List Line) :
    insert_checksum md5 lines =
      lines ++ [Line.metadata "Checksum"
        (String.mk (rstrip_eq (b64encode (md5 (checksum_input lines)))))] :=
  insert_checksum_eq md5 lines

/-! ### Inherited sources and error wrapping -/

/-- C6: a resolved fragment's inherited source is the resolved source when
its `is_inheritable` flag is set and `none` otherwise, and exactly that
inherited source is the default source under which the fragment's own
nested includes are expanded. -/
theorem c6_inherited_source :
    (∀ (name : String) (sources : List (String × Source)) (d : Option Source)
       (istack : List String) (src : Source) (nis : String)
       (lines : List Line) (inh : Option Source),
       choose_source name sources d istack = Except.ok (src, nis) →
       get_and_parse_fragment name sources d istack = Except.ok (lines, inh) →
       inh = (if src.is_inheritable then some src else none))
    ∧ (∀ (sources : List (String × Source)) (f : Nat) (d : Option Source)
       (stack : List String) (name : String) (rest inc : List Line)
       (inh : Option Source),
       name ∉ stack →
       get_and_parse_fragment name sources d (stack ++ [name]) = Except.ok (inc, inh) →
       process_includes sources (f + 1) d stack (Line.«include» name :: rest) =
         (match process_includes sources f inh (stack ++ [name]) inc with
          | Except.ok all_included =>
            (match process_includes sources (f + 1) d stack rest with
             | Except.ok rest_out =>
               Except.ok (Line.comment ("*** " ++ name ++ " ***") ::
                 (all_included ++ rest_out))
             | Except.error e => Except.error e)
          | Except.error e => Except.error (wrap_catchable e (stack ++ [name])))) := by
  constructor
  · intro name sources d istack src nis lines inh h1 h2
    unfold get_and_parse_fragment at h2
    rw [h1] at h2
    simp only [] at h2
    cases hp : src.getParsed nis with
    | error e => rw [hp] at h2; simp at h2
    | ok ls =>
      rw [hp] at h2
      simp only [Except.ok.injEq, Prod.mk.injEq] at h2
      exact h2.2.symm
  · intro sources f d stack name rest inc inh hns hg
    rw [show process_includes sources (f + 1) d stack (Line.«include» name :: rest) =
        expand_step sources (process_includes sources f) d stack
          (Line.«include» name :: rest) from rfl,
      expand_step_cons_include sources _ d stack name rest hns, hg]
    rfl

/-- C6 witness: the inheritable concrete source is itself inherited. -/
theorem c6_inherited_source_witness :
    (some c2src : Option Source) = (if c2src.is_inheritable then some c2src else none) :=
  c6_inherited_source.1 "main" [("default", c2src)] (some c2src) [] c2src "main"
    [Line.header, Line.«include» "ads"] (some c2src) (by decide) (by decide)

/-- C7: a not-found or parse failure raised while resolving an included
fragment is wrapped into an `IncludeError` embedding the original message
and the include stack ending in the included name; the rendered message
chains the stack innermost-first; and a parse failure of the top-level
fragment propagates out of `render_filterlist` unwrapped. -/
theorem c7_error_wrapping :
    (∀ (sources : List (String × Source)) (f : Nat) (d : Option Source)
       (stack : List String) (name : String) (rest : List Line) (m : String),
       name ∉ stack →
       get_and_parse_fragment name sources d (stack ++ [name]) =
         Except.error (RenderErr.notFound m) →
       process_includes sources (f + 1) d stack (Line.«include» name :: rest) =
         Except.error (RenderErr.includeError m (stack ++ [name])))
    ∧ (∀ (sources : List (String × Source)) (f : Nat) (d : Option Source)
       (stack : List String) (name : String) (rest : List Line) (m : String),
       name ∉ stack →
       get_and_parse_fragment name sources d (stack ++ [name]) =
         Except.error (RenderErr.parseError m) →
       process_includes sources (f + 1) d stack (Line.«include» name :: rest) =
         Except.error (RenderErr.includeError m (stack ++ [name])))
    ∧ (∀ m : String,
       include_error_message m ["root", "parent", "leaf"] =
         m ++ " when including 'leaf' from 'parent' from 'root'")
    ∧ (∀ (now : UTCTime) (md5 : String → List Nat) (fuel : Nat) (name : String)
       (sources : List (String × Source)) (top : Option Source) (m : String),
       get_and_parse_fragment name sources top [] =
         Except.error (RenderErr.parseError m) →
       render_filterlist now md5 fuel name sources top =
         Except.error (RenderErr.parseError m)) := by
  refine ⟨?_, ?_, ?_, ?_⟩
  · intro sources f d stack name rest m hns hg
    rw [show process_includes sources (f + 1) d stack (Line.«include» name :: rest) =
        expand_step sources (process_includes sources f) d stack
          (Line.«include» name :: rest) from rfl,
      expand_step_cons_include sources _ d stack name rest hns, hg]
    rfl
  · intro sources f d stack name rest m hns hg
    rw [show process_includes sources (f + 1) d stack (Line.«include» name :: rest) =
        expand_step sources (process_includes sources f) d stack
          (Line.«include» name :: rest) from rfl,
      expand_step_cons_include sources _ d stack name rest hns, hg]
    rfl
  · intro m
    rw [show include_error_message m ["root", "parent", "leaf"] =
        (m ++ " when including ") ++ "'leaf' from 'parent' from 'root'" from rfl,
      string_append_assoc]
    rfl
  · intro now md5 fuel name sources top m hg
    unfold render_filterlist
    rw [hg]

/-- C7 witness: a concrete not-found failure inside an include is wrapped
with the include trail. -/
theorem c7_error_wrapping_witness :
    process_includes [] 1 (some (Source.mk [] true)) ["a"] [Line.«include» "x"] =
      Except.error (RenderErr.includeError "Not found: 'x'" ["a", "x"]) :=
  c7_error_wrapping.1 [] 0 (some (Source.mk [] true)) ["a"] "x" [] "Not found: 'x'"
    (by decide) (by decide)

/-- C9 witness: a concrete non-header first line is rejected by validation. -/
theorem c9_validate_witness :
    validate [Line.rule "||example.com^"] =
      Except.error
        (RenderErr.missingHeader "No header found at the beginning of the input.") :=
  c9_validate.1 (Line.rule "||example.com^") [] (by decide)

/-! ### Termination of include expansion -/

/-- The targets of the include lines of a line sequence. -/
def include_targets : List Line → List String
  | [] => []
  | Line.«include» t :: rest => t :: include_targets rest
  | _ :: rest => include_targets rest

/-- All include targets appearing in (successfully parsed) fragments of a
fragment table. -/
def source_targets_of : List (String × Except String (List Line)) → List String
  | [] => []
  | (_, Except.ok ls) :: rest => include_targets ls ++ source_targets_of rest
  | (_, Except.error _) :: rest => source_targets_of rest

def source_targets (s : Source) : List String := source_targets_of s.fragments

/-- Every source an expansion can ever resolve: the registry values plus
the initial default source. -/
def pool (sources : List (String × Source)) (d : Option Source) : List Source :=
  sources.map Prod.snd ++ d.toList

def pool_targets_of : List Source → List String
  | [] => []
  | s :: rest => source_targets s ++ pool_targets_of rest

/-- All include targets reachable through any source of the pool. -/
def pool_targets (sources : List (String × Source)) (d : Option Source) : List String :=
  pool_targets_of (pool sources d)

theorem mem_include_targets_of_mem :
    ∀ (lines : List Line) (t : String),
    Line.«include» t ∈ lines → t ∈ include_targets lines := by
  intro lines
  induction lines with
  | nil => intro t ht; simp at ht
  | cons l rest ih =>
    intro t ht
    rcases List.mem_cons.mp ht with h | h
    · rw [← h]; simp [include_targets]
    · cases l <;> simp [include_targets, ih t h]

theorem lookup_mem_snd :
    ∀ (l : List (String × Source)) (k : String) (s : Source),
    l.lookup k = some s → s ∈ l.map Prod.snd := by
  intro l
  induction l with
  | nil => intro k s h; simp [List.lookup] at h
  | cons p rest ih =>
    intro k s h
    cases p with
    | mk k2 v =>
      by_cases he : (k == k2) = true
      · simp only [List.lookup, he] at h
        simp only [Option.some.injEq] at h
        simp [h]
      · simp only [List.lookup, he] at h
        simp [ih _ _ h]

theorem lookup_ok_targets :
    ∀ (fr : List (String × Except String (List Line))) (n : String) (ls : List Line),
    fr.lookup n = some (Except.ok ls) →
    ∀ t ∈ include_targets ls, t ∈ source_targets_of fr := by
  intro fr
  induction fr with
  | nil => intro n ls h; simp [List.lookup] at h
  | cons p rest ih =>
    intro n ls h t ht
    cases p with
    | mk k c =>
      by_cases he : (n == k) = true
      · simp only [List.lookup, he] at h
        simp only [Option.some.injEq] at h
        cases c with
        | error m => simp at h
        | ok l2 =>
          simp only [Except.ok.injEq] at h
          rw [h]
          exact List.mem_append_left _ ht
      · simp only [List.lookup, he] at h
        cases c with
        | error m => exact ih _ _ h t ht
        | ok l2 => exact List.mem_append_right _ (ih _ _ h t ht)

theorem choose_source_ok_mem (name : String) (sources : List (String × Source))
    (d : Option Source) (istack : List String) (src : Source) (nis : String) :
    choose_source name sources d istack = Except.ok (src, nis) →
    src ∈ sources.map Prod.snd ∨ d = some src := by
  intro h
  unfold choose_source at h
  cases hs : split1 ':' name.data with
  | some p =>
    obtain ⟨xs, ys⟩ := p
    rw [hs] at h
    simp only [] at h
    cases hlk : sources.lookup (String.mk xs) with
    | none => rw [hlk] at h; simp at h
    | some s =>
      rw [hlk] at h
      simp only [Except.ok.injEq, Prod.mk.injEq] at h
      exact Or.inl (h.1 ▸ lookup_mem_snd sources _ s hlk)
  | none =>
    rw [hs] at h
    simp only [] at h
    cases d with
    | none => simp at h
    | some s =>
      simp only [Except.ok.injEq, Prod.mk.injEq] at h
      exact Or.inr (by rw [h.1])

/-- Dissecting a successful fragment resolution: the resolved source is in
the registry or is the default, the inherited source is that source iff it
is inheritable, and the fragment's include targets all come from that
source's table. -/
theorem gapf_ok_cases (name : String) (sources : List (String × Source))
    (d : Option Source) (istack : List String) (r : List Line × Option Source) :
    get_and_parse_fragment name sources d istack = Except.ok r →
    ∃ src : Source, (src ∈ sources.map Prod.snd ∨ d = some src) ∧
      r.2 = (if src.is_inheritable then some src else none) ∧
      (∀ t ∈ include_targets r.1, t ∈ source_targets src) := by
  intro h
  unfold get_and_parse_fragment at h
  cases hc : choose_source name sources d istack with
  | error e => rw [hc] at h; simp at h
  | ok p =>
    obtain ⟨src, nis⟩ := p
    rw [hc] at h
    simp only [] at h
    cases hp : src.getParsed nis with
    | error e => rw [hp] at h; simp at h
    | ok ls =>
      rw [hp] at h
      simp only [Except.ok.injEq] at h
      refine ⟨src, choose_source_ok_mem name sources d istack src nis hc,
        by rw [← h], ?_⟩
      rw [← h]
      intro t ht
      unfold Source.getParsed at hp
      cases hlk : src.fragments.lookup nis with
      | none => rw [hlk] at hp; simp at hp
      | some c =>
        rw [hlk] at hp
        cases c with
        | error m => simp at hp
        | ok l2 =>
          simp only [Except.ok.injEq] at hp
          exact lookup_ok_targets src.fragments nis ls (by rw [hlk, hp]) t ht

theorem choose_source_no_ofl (name : String) (sources : List (String × Source))
    (d : Option Source) (istack : List String) :
    choose_source name sources d istack ≠ Except.error RenderErr.outOfFuel := by
  unfold choose_source
  cases split1 ':' name.data with
  | some p =>
    obtain ⟨xs, ys⟩ := p
    simp only []
    cases sources.lookup (String.mk xs) <;> simp
  | none => cases d <;> simp

theorem getParsed_no_ofl (s : Source) (n : String) :
    s.getParsed n ≠ Except.error RenderErr.outOfFuel := by
  unfold Source.getParsed
  cases s.fragments.lookup n with
  | none => simp
  | some c => cases c <;> simp

/-- No resolution error is the fuel artifact. -/
theorem gapf_no_ofl (name : String) (sources : List (String × Source))
    (d : Option Source) (istack : List String) :
    get_and_parse_fragment name sources d istack ≠
      Except.error RenderErr.outOfFuel := by
  intro h
  unfold get_and_parse_fragment at h
  cases hc : choose_source name sources d istack with
  | error e =>
    rw [hc] at h
    simp only [Except.error.injEq] at h
    exact choose_source_no_ofl name sources d istack (by rw [hc, h])
  | ok p =>
    obtain ⟨src, nis⟩ := p
    rw [hc] at h
    simp only [] at h
    cases hp : src.getParsed nis with
    | error e =>
      rw [hp] at h
      simp only [Except.error.injEq] at h
      exact getParsed_no_ofl src nis (by rw [hp, h])
    | ok ls => rw [hp] at h; simp at h

theorem wrap_catchable_ofl (e : RenderErr) (st : List String) :
    wrap_catchable e st = RenderErr.outOfFuel → e = RenderErr.outOfFuel := by
  cases e <;> simp [wrap_catchable]

/-- If the deep expansion of each successfully resolved included fragment
avoids fuel exhaustion, so does the whole step. -/
theorem expand_step_ne_ofl (sources : List (String × Source))
    (deep : Option Source → List String → List Line → Except RenderErr (List Line))
    (d : Option Source) (stack : List String) :
    ∀ lines : List Line,
    (∀ (name : String) (r : List Line × Option Source),
      Line.«include» name ∈ lines → name ∉ stack →
      get_and_parse_fragment name sources d (stack ++ [name]) = Except.ok r →
      deep r.2 (stack ++ [name]) r.1 ≠ Except.error RenderErr.outOfFuel) →
    expand_step sources deep d stack lines ≠ Except.error RenderErr.outOfFuel := by
  intro lines
  induction lines with
  | nil => intro _; simp [expand_step]
  | cons l rest ih =>
    intro h
    have hrest := fun name r hm => h name r (List.mem_cons_of_mem _ hm)
    have hother : ∀ hl : Line.type l ≠ "include",
        expand_step sources deep d stack (l :: rest) ≠
          Except.error RenderErr.outOfFuel := by
      intro hl
      rw [expand_step_cons_other sources deep d stack l rest hl]
      cases hr : expand_step sources deep d stack rest with
      | error e =>
        simp only []
        intro hcon
        simp only [Except.error.injEq] at hcon
        exact ih hrest (by rw [hr, hcon])
      | ok ro => simp
    cases l with
    | «include» name =>
      by_cases hns : name ∈ stack
      · simp [expand_step, hns]
      · rw [expand_step_cons_include sources deep d stack name rest hns]
        cases hg : get_and_parse_fragment name sources d (stack ++ [name]) with
        | error e =>
          simp only []
          intro hcon
          simp only [Except.error.injEq] at hcon
          exact gapf_no_ofl name sources d (stack ++ [name])
            (by rw [hg, wrap_catchable_ofl e _ hcon])
        | ok r =>
          simp only []
          cases hdeep : deep r.2 (stack ++ [name]) r.1 with
          | error e =>
            intro hcon
            simp only [Except.error.injEq] at hcon
            exact h name r (List.mem_cons_self _ _) hns hg
              (by rw [hdeep, wrap_catchable_ofl e _ hcon])
          | ok all =>
            cases hr : expand_step sources deep d stack rest with
            | error e =>
              simp only []
              intro hcon
              simp only [Except.error.injEq] at hcon
              exact ih hrest (by rw [hr, hcon])
            | ok ro => simp
    | header => exact hother (by simp [Line.type])
    | metadata k v => exact hother (by simp [Line.type])
    | comment t => exact hother (by simp [Line.type])
    | emptyline => exact hother (by simp [Line.type])
    | rule t => exact hother (by simp [Line.type])

/-- Pushing a fresh name from `U` onto the stack strictly shrinks the count
of `U`-elements not yet on the stack. -/
theorem filter_stack_push (U stack : List String) (name : String)
    (hU : name ∈ U) (hns : name ∉ stack) :
    (U.filter (fun t => decide (t ∉ stack ++ [name]))).length <
      (U.filter (fun t => decide (t ∉ stack))).length := by
  have h1 : U.filter (fun t => decide (t ∉ stack ++ [name])) =
      (U.filter (fun t => decide (t ∉ stack))).filter
        (fun t => decide (t ∉ stack ++ [name])) := by
    rw [List.filter_filter]
    apply List.filter_congr
    intro t _
    by_cases h : t ∉ stack ++ [name]
    · have ht : t ∉ stack := fun hmem => h (List.mem_append_left _ hmem)
      rw [decide_eq_true h, decide_eq_true ht]
      rfl
    · rw [decide_eq_false h]
      simp
  rw [h1]
  apply Nat.lt_of_le_of_ne (List.Sublist.length_le (List.filter_sublist _))
  intro heq
  have heql := List.Sublist.eq_of_length (List.filter_sublist _) heq
  have hmem : name ∈ U.filter (fun t => decide (t ∉ stack)) := by
    rw [List.mem_filter]
    exact ⟨hU, by simpa using hns⟩
  rw [← heql, List.mem_filter] at hmem
  have : name ∉ stack ++ [name] := by simpa using hmem.2
  exact this (List.mem_append_right _ (List.mem_singleton.mpr rfl))

theorem mem_pool_targets_of :
    ∀ (ps : List Source) (s : Source), s ∈ ps →
    ∀ t ∈ source_targets s, t ∈ pool_targets_of ps := by
  intro ps
  induction ps with
  | nil => intro s hs; simp at hs
  | cons q rest ih =>
    intro s hs t ht
    rcases List.mem_cons.mp hs with h | h
    · exact List.mem_append_left _ (h ▸ ht)
    · exact List.mem_append_right _ (ih s h t ht)

/-- Main counting argument: any fuel exceeding the number of `U`-elements
not yet on the stack suffices, where `U` overapproximates all reachable
include targets. -/
theorem pi_ne_ofl_aux :
    ∀ (fuel : Nat) (sources : List (String × Source)) (d0 : Option Source)
      (U : List String),
    (∀ s ∈ pool sources d0, ∀ t ∈ source_targets s, t ∈ U) →
    ∀ (d : Option Source) (stack : List String) (lines : List Line),
    (∀ s, d = some s → s ∈ pool sources d0) →
    (∀ t ∈ include_targets lines, t ∈ U) →
    (U.filter (fun t => decide (t ∉ stack))).length < fuel →
    process_includes sources fuel d stack lines ≠
      Except.error RenderErr.outOfFuel := by
  intro fuel
  induction fuel with
  | zero => intro sources d0 U hU d stack lines hd hl hf; exact absurd hf (Nat.not_lt_zero _)
  | succ f ih =>
    intro sources d0 U hU d stack lines hd hl hf
    show expand_step sources (process_includes sources f) d stack lines ≠
      Except.error RenderErr.outOfFuel
    apply expand_step_ne_ofl
    intro name r hmem hns hg
    obtain ⟨src, hsrc, hinh, htr⟩ := gapf_ok_cases name sources d (stack ++ [name]) r hg
    have hsrcpool : src ∈ pool sources d0 := by
      rcases hsrc with h | h
      · exact List.mem_append_left _ h
      · exact hd src h
    apply ih sources d0 U hU r.2 (stack ++ [name]) r.1
    · intro s hs
      rw [hinh] at hs
      by_cases hi : src.is_inheritable = true
      · rw [hi] at hs
        simp only [if_true, Option.some.injEq] at hs
        exact hs ▸ hsrcpool
      · simp only [hi] at hs
        simp at hs
    · intro t ht
      exact hU src hsrcpool t (htr t ht)
    · have hnameU : name ∈ U := hl name (mem_include_targets_of_mem lines name hmem)
      have hdec := filter_stack_push U stack name hnameU hns
      omega

/-- C10: include expansion terminates for any finite reachable target set;
once the fuel (the recursion-depth bound) exceeds the number of distinct
include targets reachable through the source pool and the initial lines,
the expansion never exhausts it: every descent pushes a fresh reachable
name onto the duplicate-free stack. -/
theorem c10_expansion_terminates :
    ∀ (sources : List (String × Source)) (d : Option Source) (stack : List String)
      (lines : List Line) (fuel : Nat),
    ((pool_targets sources d ++ include_targets lines).dedup).length < fuel →
    process_includes sources fuel d stack lines ≠
      Except.error RenderErr.outOfFuel := by
  intro sources d stack lines fuel hf
  apply pi_ne_ofl_aux fuel sources d
    ((pool_targets sources d ++ include_targets lines).dedup)
  · intro s hs t ht
    rw [List.mem_dedup]
    exact List.mem_append_left _ (mem_pool_targets_of (pool sources d) s hs t ht)
  · intro s hs
    rw [hs]
    exact List.mem_append_right _ (by simp)
  · intro t ht
    rw [List.mem_dedup]
    exact List.mem_append_right _ ht
  · calc ((pool_targets sources d ++ include_targets lines).dedup.filter
        (fun t => decide (t ∉ stack))).length
        ≤ ((pool_targets sources d ++ include_targets lines).dedup).length :=
          List.Sublist.length_le (List.filter_sublist _)
      _ < fuel := hf

/-- C10 witness: a concrete bound suffices on a concrete registry. -/
theorem c10_expansion_terminates_witness :
    ((pool_targets [("default", c2src)] (some c2src) ++
        include_targets [Line.header, Line.«include» "ads"]).dedup).length < 3 ∧
    process_includes [("default", c2src)] 3 (some c2src) ["main"]
        [Line.header, Line.«include» "ads"] ≠
      Except.error RenderErr.outOfFuel :=
  ⟨by decide,
   c10_expansion_terminates [("default", c2src)] (some c2src) ["main"]
     [Line.header, Line.«include» "ads"] 3 (by decide)⟩

end Abp
